import Mathlib

/-!
Formal model of `drivers/scsi/sg/sg_race_trigger.c`, a user-space harness that
drives an sg device with concurrent SCSI commands while a monitor thread scans
`/proc/scsi/sg/debug` for bogus elapsed-time values.

Modelling conventions:
* C strings are `List Char`.
* C `int`/`long` values are unbounded `Int`/`Nat` (overflow in `sscanf` is
  undefined behaviour and outside the model; all values exercised by the
  harness are small).
* The shared mutable globals (`keep_running`, `bugs_found`, the append-only
  bug log file) are one explicit state record `SState`; every site in the C
  source that mutates them becomes a step function on that record.
* Whether a given `fopen(BUG_LOG_FILE, "a")` inside `log_debug_snapshot`
  succeeds depends on the environment, so the state carries an oracle list
  `logOpens` of open outcomes, consumed one entry per log attempt.
-/

namespace SgRace

/-- C `isspace` - the whitespace class skipped by `sscanf` conversions. -/
def isWsC (c : Char) : Bool :=
  c = ' ' || c = '\t' || c = '\n' || c = '\x0b' || c = '\x0c' || c = '\r'

/-- Decimal digit class consumed by the `%d` conversion of `sscanf`. -/
def isDigitC (c : Char) : Bool := '0' ≤ c && c ≤ '9'

/-- Keep-condition of the truncation loop in `get_opcode` (source line 212):
a character is kept unless `c < '0' || (c > '9' && c < 'a') || c > 'f'`,
i.e. exactly the characters `0`-`9` and `a`-`f` are kept. -/
def keepHex (c : Char) : Bool := !(c < '0' || (c > '9' && c < 'a') || c > 'f')

/-- `startsWith hay needle`: `needle` is a leading segment of `hay`
(the prefix comparison performed at each position by C `strstr`). -/
def startsWith : List Char → List Char → Bool
  | _, [] => true
  | [], _ :: _ => false
  | a :: t, b :: nt => a = b && startsWith t nt

/-- C `strstr`: the suffix of `hay` beginning at the first occurrence of
`needle`, or `none` when `needle` does not occur. -/
def strstr : List Char → List Char → Option (List Char)
  | [], needle => if startsWith [] needle then some [] else none
  | a :: t, needle =>
      if startsWith (a :: t) needle then some (a :: t) else strstr t needle

/-- `strstr hay needle != NULL`. -/
def containsSub (hay needle : List Char) : Bool := (strstr hay needle).isSome

/-- Value denoted by a string of decimal digits. -/
def natOfDigits (ds : List Char) : Nat :=
  ds.foldl (fun a c => 10 * a + (c.toNat - 48)) 0

/-- The digit-run part of the `%d` conversion of `sscanf`: reads a maximal
nonempty run of decimal digits, failing if there is none. -/
def readNat (cs : List Char) : Option (Nat × List Char) :=
  let ds := cs.takeWhile isDigitC
  if ds = [] then none else some (natOfDigits ds, cs.dropWhile isDigitC)

/-- The `%d` conversion of `sscanf`: skip whitespace, then an optional sign
followed by a nonempty digit run. -/
def scanInt (cs : List Char) : Option (Int × List Char) :=
  match cs.dropWhile isWsC with
  | [] => none
  | c :: r =>
    if c = '-' then (readNat r).map (fun p => (-(p.1 : Int), p.2))
    else if c = '+' then (readNat r).map (fun p => ((p.1 : Int), p.2))
    else (readNat (c :: r)).map (fun p => ((p.1 : Int), p.2))

/-- The timing marker `"t_o/elap="` searched for by `parse_elapsed`
(source line 194). -/
def timingMarker : List Char := ['t', '_', 'o', '/', 'e', 'l', 'a', 'p', '=']

/-- The substring `"elap="` that gates anomaly checking in `monitor_worker`
(source line 304). -/
def elapMarker : List Char := ['e', 'l', 'a', 'p', '=']

/-- The opcode marker `"op=0x"` searched for by `get_opcode`
(source line 207). -/
def opMarker : List Char := ['o', 'p', '=', '0', 'x']

/-- The successful-parse part of `parse_elapsed` (source lines 193-203):
`sscanf(p, "t_o/elap=%d/%dms", &timeout, &elapsed) == 2` yields the second
integer.  (`sscanf` returns 2 as soon as both `%d` conversions succeed; the
trailing literal `ms` does not affect the count.)  `none` models the
sentinel `-1` return. -/
def parseElapsedOpt (line : List Char) : Option Int :=
  match strstr line timingMarker with
  | none => none
  | some p =>
    match scanInt (p.drop 9) with
    | none => none
    | some tr =>
      match tr.2 with
      | [] => none
      | c :: r2 =>
        if c = '/' then
          match scanInt r2 with
          | none => none
          | some er => some er.1
        else none

/-- `parse_elapsed` (source lines 193-203): the parsed elapsed value, or the
sentinel `-1` when the marker is absent or the field is malformed. -/
def parse_elapsed (line : List Char) : Int := (parseElapsedOpt line).getD (-1)

/-- `get_opcode` (source lines 206-220).  When `"op=0x"` occurs,
`sscanf(p, "op=0x%s", opcode)` skips whitespace and copies the following
maximal non-whitespace run, and the loop at line 211 truncates it at the
first character outside `0-9a-f`.  When the run is empty the `%s`
conversion fails and the buffer is left uninitialized: modelled as `none`.
When the marker is absent the result is the sentinel `"??"`. -/
def get_opcode (line : List Char) : Option (List Char) :=
  match strstr line opMarker with
  | none => some ['?', '?']
  | some p =>
    let run := ((p.drop 5).dropWhile isWsC).takeWhile (fun c => !isWsC c)
    if run = [] then none
    else some (run.takeWhile keepHex)

/-- The anomaly predicate of `monitor_worker` (source line 308):
`elapsed < 0 || elapsed > 10000`. -/
def anomalous (e : Int) : Bool := decide (e < 0) || decide (e > 10000)

/-- The per-line gate of `monitor_worker` (source lines 300-304): a line is
examined only if it fits the 512-byte `saved_line` buffer and contains the
substring `"elap="`. -/
def checksLine (l : List Char) : Bool :=
  decide (l.length < 512) && containsSub l elapMarker

/-- A line enters the bug-recording branch (source line 308) exactly when it
passes the gate and its parsed elapsed value satisfies the anomaly
predicate. -/
def lineFlagged (l : List Char) : Bool :=
  checksLine l && anomalous (parse_elapsed l)

/-- `TEST_ITERATIONS` (source line 22). -/
def TEST_ITERATIONS : Nat := 1000

/-- One record appended to `bug_find.log` by `log_debug_snapshot`
(source lines 223-260).  `opcode = none` models the case where the opcode
buffer was left uninitialized by a failed `%s` conversion. -/
structure BugRecord where
  iteration : Nat
  elapsed : Int
  opcode : Option (List Char)
  snapshot : List Char

/-- The shared mutable state of the harness: the globals `keep_running`
(line 25) and `bugs_found` (line 26), the contents of the bug log file, the
monitor's local `iteration` counter, the environment oracle for
`fopen(BUG_LOG_FILE, "a")` outcomes, and a count of the `sleep(1)` backoffs
performed after failed feed opens (line 278). -/
structure SState where
  keep_running : Bool
  bugs_found : Nat
  bugLog : List BugRecord
  iteration : Nat
  logOpens : List Bool
  backoffs : Nat

/-- `log_debug_snapshot` (source lines 223-260): open the log in append
mode; on failure warn and return without writing (line 231-234); on success
append one self-contained record.  The next oracle entry decides whether the
open succeeds (an exhausted oracle means opens succeed). -/
def log_debug_snapshot (st : SState) (r : BugRecord) : SState :=
  if st.logOpens.headD true then
    { st with bugLog := st.bugLog ++ [r], logOpens := st.logOpens.tail }
  else
    { st with logOpens := st.logOpens.tail }

/-- Processing of one saved line by `monitor_worker` (source lines 298-352):
if the line fits `saved_line`, contains `"elap="` and its parsed elapsed
value is anomalous, increment `bugs_found` (line 320) and call
`log_debug_snapshot` with the current iteration, elapsed value, opcode and
the full captured buffer (line 323); otherwise leave the state unchanged. -/
def processLine (iter : Nat) (buf : List Char) (st : SState) (l : List Char) : SState :=
  if lineFlagged l then
    log_debug_snapshot { st with bugs_found := st.bugs_found + 1 }
      ⟨iter, parse_elapsed l, get_opcode l, buf⟩
  else st

/-- The capture loop of `monitor_worker` (source lines 283-287): repeatedly
read one `fgets` chunk (at most 511 characters) and append it to
`debug_buffer`, as long as a chunk was read and the buffer position before
the append is below `sizeof(debug_buffer) - 512 = 65536 - 512`. -/
def captureLoop : List (List Char) → List Char → List Char
  | [], acc => acc
  | c :: rest, acc =>
      if acc.length < 65536 - 512 then captureLoop rest (acc ++ c) else acc

/-- The line-splitting scan of `monitor_worker` (source lines 291-352):
`strchr`-driven split of the captured buffer at `'\n'`; the trailing
segment with no terminating newline is never processed. -/
def scanLines (cs : List Char) : List (List Char) × List Char :=
  cs.foldl
    (fun (acc : List (List Char) × List Char) c =>
      if c = '\n' then (acc.1 ++ [acc.2], []) else (acc.1, acc.2 ++ [c]))
    ([], [])

/-- The newline-terminated lines of the captured buffer, in order. -/
def completeLines (cs : List Char) : List (List Char) := (scanLines cs).1

/-- One monitor pass with an available feed (source lines 270-363): capture
the feed into a fixed buffer, then scan the captured buffer line by line,
and finally increment `iteration` (line 354). -/
def monitorPass (chunks : List (List Char)) (st : SState) : SState :=
  let buf := captureLoop chunks []
  let st1 := (completeLines buf).foldl (processLine st.iteration buf) st
  { st1 with iteration := st1.iteration + 1 }

/-- What one attempt to read `/proc/scsi/sg/debug` yields: either the open
fails, or it returns a sequence of `fgets` chunks. -/
inductive FeedInput where
  | unavailable : FeedInput
  | feed : List (List Char) → FeedInput

/-- One iteration of the `monitor_worker` loop (source lines 270-364).  The
loop body runs only while `keep_running && iteration < TEST_ITERATIONS`.
A failed `fopen(PROC_DEBUG)` performs a `sleep(1)` backoff and `continue`s
(lines 276-280), skipping both the scan and the `iteration++`. -/
def monitorStep (inp : FeedInput) (st : SState) : SState :=
  if st.keep_running && decide (st.iteration < TEST_ITERATIONS) then
    match inp with
    | FeedInput.unavailable => { st with backoffs := st.backoffs + 1 }
    | FeedInput.feed chunks => monitorPass chunks st
  else st

/-- The events that mutate the shared state during a run: the `SIGINT` /
`SIGTERM` handler `cleanup` (source lines 36-38), one iteration of the
monitor loop, the monitor's final `keep_running = 0` (line 366), and the
coordinator's `keep_running = 0` in `main` (line 414). -/
inductive Event where
  | signal : Event
  | monitor : FeedInput → Event
  | monitorExit : Event
  | mainStop : Event

/-- Effect of one event on the shared state.  These are the only writes to
`keep_running`, `bugs_found` and the bug log anywhere in the program. -/
def step : Event → SState → SState
  | Event.signal, st => { st with keep_running := false }
  | Event.monitor inp, st => monitorStep inp st
  | Event.monitorExit, st => { st with keep_running := false }
  | Event.mainStop, st => { st with keep_running := false }

/-- A run: the interleaved sequence of state-mutating events, applied in
order. -/
def runEvents (evs : List Event) (st : SState) : SState :=
  evs.foldl (fun s e => step e s) st

/-- State at program start (source lines 24-27): `keep_running = 1`,
`bugs_found = 0`, empty log, iteration 0, given log-open oracle. -/
def initState (logOpens : List Bool) : SState :=
  ⟨true, 0, [], 0, logOpens, 0⟩

/-- The `return` of `main` (source line 440):
`(bugs_found > 0) ? 0 : 1`. -/
def mainExitStatus (st : SState) : Nat := if st.bugs_found > 0 then 0 else 1

/-- The run invariant behind C1: the log-open oracle has no failures ahead,
and the anomaly counter equals the number of records in the bug log. -/
def GoodLog (st : SState) : Prop :=
  (∀ b ∈ st.logOpens, b = true) ∧ st.bugs_found = st.bugLog.length

/-! ### Character class facts -/

theorem ws_not_digit (c : Char) (h : isWsC c = true) : isDigitC c = false := by
  simp only [isWsC, Bool.or_eq_true, decide_eq_true_eq] at h
  rcases h with ((((h | h) | h) | h) | h) | h <;> subst h <;> decide

theorem digit_not_ws (c : Char) (h : isDigitC c = true) : isWsC c = false := by
  cases hw : isWsC c with
  | false => rfl
  | true => rw [ws_not_digit c hw] at h; cases h

theorem ws_not_keepHex (c : Char) (h : isWsC c = true) : keepHex c = false := by
  simp only [isWsC, Bool.or_eq_true, decide_eq_true_eq] at h
  rcases h with ((((h | h) | h) | h) | h) | h <;> subst h <;> decide

theorem keepHex_not_ws (c : Char) (h : keepHex c = true) : isWsC c = false := by
  cases hw : isWsC c with
  | false => rfl
  | true => rw [ws_not_keepHex c hw] at h; cases h

theorem digit_ne_minus (c : Char) (h : isDigitC c = true) : ¬(c = '-') := by
  intro he; subst he; cases h

theorem digit_ne_plus (c : Char) (h : isDigitC c = true) : ¬(c = '+') := by
  intro he; subst he; cases h

/-! ### takeWhile / dropWhile over appends -/

theorem takeWhile_append_all (p : Char → Bool) (l r : List Char)
    (h : ∀ c ∈ l, p c = true) :
    (l ++ r).takeWhile p = l ++ r.takeWhile p := by
  induction l with
  | nil => rfl
  | cons a t ih =>
      rw [List.cons_append,
        List.takeWhile_cons_of_pos (h a (List.mem_cons_self a t)),
        ih (fun c hc => h c (List.mem_cons_of_mem a hc)),
        List.cons_append]

theorem dropWhile_append_all (p : Char → Bool) (l r : List Char)
    (h : ∀ c ∈ l, p c = true) :
    (l ++ r).dropWhile p = r.dropWhile p := by
  induction l with
  | nil => rfl
  | cons a t ih =>
      rw [List.cons_append,
        List.dropWhile_cons_of_pos (h a (List.mem_cons_self a t))]
      exact ih (fun c hc => h c (List.mem_cons_of_mem a hc))

theorem takeWhile_nil_of_head (p : Char → Bool) (r : List Char)
    (h : ∀ c, r.head? = some c → p c = false) :
    r.takeWhile p = [] := by
  cases r with
  | nil => rfl
  | cons a t => exact List.takeWhile_cons_of_neg (by simp [h a rfl])

theorem dropWhile_self_of_head (p : Char → Bool) (r : List Char)
    (h : ∀ c, r.head? = some c → p c = false) :
    r.dropWhile p = r := by
  cases r with
  | nil => rfl
  | cons a t => exact List.dropWhile_cons_of_neg (by simp [h a rfl])

/-! ### startsWith / strstr characterization -/

theorem startsWith_iff (hay needle : List Char) :
    startsWith hay needle = true ↔ ∃ t, hay = needle ++ t := by
  induction needle generalizing hay with
  | nil => simp [startsWith]
  | cons b nt ih =>
      cases hay with
      | nil =>
          simp only [startsWith]
          constructor
          · intro h; cases h
          · rintro ⟨t, ht⟩; cases ht
      | cons a t =>
          simp only [startsWith, Bool.and_eq_true, decide_eq_true_eq, ih]
          constructor
          · rintro ⟨rfl, u, rfl⟩; exact ⟨u, rfl⟩
          · rintro ⟨u, hu⟩
            rw [List.cons_append] at hu
            injection hu with h1 h2
            exact ⟨h1, u, h2⟩

theorem strstr_isSome_iff (hay needle : List Char) :
    (strstr hay needle).isSome = true ↔ ∃ s t, hay = s ++ needle ++ t := by
  induction hay with
  | nil =>
      simp only [strstr]
      cases hpw : startsWith [] needle with
      | true =>
          obtain ⟨t, ht⟩ := (startsWith_iff [] needle).1 hpw
          simp only [hpw, if_true, Option.isSome_some, true_iff]
          exact ⟨[], t, by simpa using ht⟩
      | false =>
          simp only [hpw, Bool.false_eq_true, if_false, Option.isSome_none,
            Bool.false_eq_true, false_iff]
          rintro ⟨s, t, hst⟩
          have hst' : s ++ (needle ++ t) = [] := by simpa using hst.symm
          rw [List.append_eq_nil] at hst'
          obtain ⟨rfl, hst''⟩ := hst'
          rw [List.append_eq_nil] at hst''
          obtain ⟨rfl, rfl⟩ := hst''
          rw [show startsWith [] [] = true from rfl] at hpw
          cases hpw
  | cons a tl ih =>
      simp only [strstr]
      cases hpw : startsWith (a :: tl) needle with
      | true =>
          obtain ⟨t, ht⟩ := (startsWith_iff _ needle).1 hpw
          simp only [hpw, if_true, Option.isSome_some, true_iff]
          exact ⟨[], t, by simpa using ht⟩
      | false =>
          simp only [hpw, Bool.false_eq_true, if_false, ih]
          constructor
          · rintro ⟨s, t, rfl⟩
            exact ⟨a :: s, t, by simp⟩
          · rintro ⟨s, t, hst⟩
            cases s with
            | nil =>
                exfalso
                have hsw : startsWith (a :: tl) needle = true :=
                  (startsWith_iff _ _).2 ⟨t, by simpa using hst⟩
                rw [hpw] at hsw
                cases hsw
            | cons x xs =>
                rw [List.cons_append, List.cons_append] at hst
                injection hst with h1 h2
                exact ⟨xs, t, h2⟩

/-- If the full timing marker occurs in a line, so does `"elap="`. -/
theorem containsSub_elap_of_timing (l : List Char)
    (h : (strstr l timingMarker).isSome = true) :
    containsSub l elapMarker = true := by
  rw [strstr_isSome_iff] at h
  obtain ⟨s, t, rfl⟩ := h
  unfold containsSub
  rw [strstr_isSome_iff]
  exact ⟨s ++ ['t', '_', 'o', '/'], t, by simp [timingMarker, elapMarker]⟩

/-! ### Behaviour of the sscanf model on digit runs -/

/-- `%d` on a nonempty digit run followed by a non-digit reads exactly the
run and leaves the rest unconsumed. -/
theorem scanInt_digits (ds rest : List Char) (hne : ds ≠ [])
    (hd : ∀ c ∈ ds, isDigitC c = true)
    (hr : ∀ c, rest.head? = some c → isDigitC c = false) :
    scanInt (ds ++ rest) = some ((natOfDigits ds : Int), rest) := by
  obtain ⟨d, ds', rfl⟩ : ∃ d ds', ds = d :: ds' := by
    cases ds with
    | nil => exact absurd rfl hne
    | cons d ds' => exact ⟨d, ds', rfl⟩
  have hdd : isDigitC d = true := hd d (by simp)
  have hdrop : ((d :: ds') ++ rest).dropWhile isWsC = d :: (ds' ++ rest) := by
    simp [List.dropWhile_cons, digit_not_ws d hdd]
  have htake : ((d :: ds') ++ rest).takeWhile isDigitC = d :: ds' := by
    rw [takeWhile_append_all isDigitC (d :: ds') rest hd,
      takeWhile_nil_of_head isDigitC rest hr, List.append_nil]
  have hdropd : ((d :: ds') ++ rest).dropWhile isDigitC = rest := by
    rw [dropWhile_append_all isDigitC (d :: ds') rest hd,
      dropWhile_self_of_head isDigitC rest hr]
  unfold scanInt
  rw [hdrop]
  simp only [digit_ne_minus d hdd, if_false, digit_ne_plus d hdd]
  unfold readNat
  rw [show d :: (ds' ++ rest) = (d :: ds') ++ rest from rfl, htake, hdropd]
  simp

/-- On a line whose first timing-marker occurrence is followed by a
well-formed `<timeout>/<elapsed>ms` field, the parser returns exactly the
elapsed digits' value. -/
theorem parseElapsedOpt_wellformed (line tds eds r1 : List Char)
    (hT : strstr line timingMarker =
      some (timingMarker ++ (tds ++ '/' :: (eds ++ 'm' :: 's' :: r1))))
    (htne : tds ≠ []) (htd : ∀ c ∈ tds, isDigitC c = true)
    (hene : eds ≠ []) (hed : ∀ c ∈ eds, isDigitC c = true) :
    parseElapsedOpt line = some ((natOfDigits eds : Int)) := by
  have hs1 := scanInt_digits tds ('/' :: (eds ++ 'm' :: 's' :: r1)) htne htd
    (by intro c hc; simp only [List.head?_cons, Option.some.injEq] at hc
        subst hc; decide)
  have hs2 := scanInt_digits eds ('m' :: 's' :: r1) hene hed
    (by intro c hc; simp only [List.head?_cons, Option.some.injEq] at hc
        subst hc; decide)
  have hdrop : (timingMarker ++ (tds ++ '/' :: (eds ++ 'm' :: 's' :: r1))).drop 9
      = tds ++ '/' :: (eds ++ 'm' :: 's' :: r1) := by
    have h9 : timingMarker.length = 9 := rfl
    rw [← h9]
    exact List.drop_left _ _
  simp only [parseElapsedOpt, hT, hdrop, hs1, hs2]
  simp

/-- On a line whose first `"op=0x"` occurrence is followed by a nonempty
run of kept (hex) characters delimited by a non-kept character or the end
of the line, `get_opcode` returns exactly that run. -/
theorem get_opcode_wellformed (line hex r2 : List Char)
    (hO : strstr line opMarker = some (opMarker ++ (hex ++ r2)))
    (hne : hex ≠ []) (hhex : ∀ c ∈ hex, keepHex c = true)
    (hr2 : ∀ c, r2.head? = some c → keepHex c = false) :
    get_opcode line = some hex := by
  obtain ⟨h0, hex', rfl⟩ : ∃ h0 hex', hex = h0 :: hex' := by
    cases hex with
    | nil => exact absurd rfl hne
    | cons h0 hex' => exact ⟨h0, hex', rfl⟩
  have hnw : ∀ c ∈ h0 :: hex', (!isWsC c) = true := by
    intro c hc
    rw [keepHex_not_ws c (hhex c hc)]
    rfl
  have hdrop : (opMarker ++ ((h0 :: hex') ++ r2)).drop 5 = (h0 :: hex') ++ r2 := by
    have h5 : opMarker.length = 5 := rfl
    rw [← h5]
    exact List.drop_left _ _
  have hdw : ((h0 :: hex') ++ r2).dropWhile isWsC = (h0 :: hex') ++ r2 := by
    simp [List.dropWhile_cons, keepHex_not_ws h0 (hhex h0 (by simp))]
  have htw : ((h0 :: hex') ++ r2).takeWhile (fun c => !isWsC c)
      = (h0 :: hex') ++ r2.takeWhile (fun c => !isWsC c) :=
    takeWhile_append_all _ _ _ hnw
  have hr2t : (r2.takeWhile (fun c => !isWsC c)).takeWhile keepHex = [] := by
    cases r2 with
    | nil => rfl
    | cons x xs =>
        cases hx : isWsC x with
        | true => simp [List.takeWhile_cons, hx]
        | false =>
            simp only [List.takeWhile_cons, hx, Bool.not_false, if_true]
            simp [List.takeWhile_cons, hr2 x rfl]
  have hfinal : (((h0 :: hex') ++ r2.takeWhile (fun c => !isWsC c)).takeWhile keepHex)
      = h0 :: hex' := by
    rw [takeWhile_append_all keepHex _ _ hhex, hr2t, List.append_nil]
  simp only [get_opcode, hO, hdrop, hdw, htw]
  rw [if_neg (by simp), hfinal]

/-! ### Claim theorems -/

/-- C4: for every well-formed line containing both the timing marker
(`t_o/elap=<timeout>/<elapsed>ms`, digit runs) and the opcode marker
(`op=0x<hexdigits>`), `parse_elapsed` returns the exact integer elapsed
value present in the line and `get_opcode` returns the exact longest
leading run of hex digits following `op=0x`.  The `strstr` hypotheses say
that the first occurrence of each marker is the well-formed one; the
`head?` hypothesis says the hex run is maximal. -/
theorem wellformed_line_parses_exact
    (line tds eds r1 hex r2 : List Char)
    (hT : strstr line timingMarker =
      some (timingMarker ++ (tds ++ '/' :: (eds ++ 'm' :: 's' :: r1))))
    (htne : tds ≠ []) (htd : ∀ c ∈ tds, isDigitC c = true)
    (hene : eds ≠ []) (hed : ∀ c ∈ eds, isDigitC c = true)
    (hO : strstr line opMarker = some (opMarker ++ (hex ++ r2)))
    (hne : hex ≠ []) (hhex : ∀ c ∈ hex, keepHex c = true)
    (hr2 : ∀ c, r2.head? = some c → keepHex c = false) :
    parse_elapsed line = (natOfDigits eds : Int) ∧ get_opcode line = some hex := by
  constructor
  · rw [parse_elapsed, parseElapsedOpt_wellformed line tds eds r1 hT htne htd hene hed]
    rfl
  · exact get_opcode_wellformed line hex r2 hO hne hhex hr2

/-- Witness for C4: the concrete well-formed line
`"xx op=0x0a t_o/elap=60000/15000ms yy"` parses to elapsed `15000` and
opcode `"0a"`. -/
theorem wellformed_line_witness :
    parse_elapsed "xx op=0x0a t_o/elap=60000/15000ms yy".data = 15000 ∧
    get_opcode "xx op=0x0a t_o/elap=60000/15000ms yy".data = some ['0', 'a'] := by
  have h := wellformed_line_parses_exact
    "xx op=0x0a t_o/elap=60000/15000ms yy".data
    "60000".data "15000".data " yy".data
    ['0', 'a'] " t_o/elap=60000/15000ms yy".data
    (by rfl) (by decide) (by decide) (by decide) (by decide)
    (by rfl) (by decide) (by decide) (by decide)
  exact ⟨h.1.trans (by decide), h.2⟩

/-- C5: on the malformed line `"op=0xZZ t_o/elap=abc/ms"` the parser
completes (the model functions are total) and returns the opcode truncated
at the first non-hex character - here the empty string, since `Z` is not a
kept hex digit - together with an absent elapsed value (`parseElapsedOpt`
is `none`, so `parse_elapsed` returns the sentinel `-1`). -/
theorem malformed_line_tolerated :
    get_opcode "op=0xZZ t_o/elap=abc/ms".data = some [] ∧
    parseElapsedOpt "op=0xZZ t_o/elap=abc/ms".data = none ∧
    parse_elapsed "op=0xZZ t_o/elap=abc/ms".data = -1 :=
  ⟨rfl, rfl, rfl⟩

/-- C2 counterexample: the line `"xx elap=1"` does not contain the timing
marker `"t_o/elap="`, yet the monitor loop's gate (source line 304) passes
it - the gate tests only for the substring `"elap="` - and the anomaly
check is applied to the sentinel `-1`, flagging the line.  This refutes the
claim that the anomaly check is never applied to lines missing the timing
marker. -/
theorem anomaly_check_applied_without_timing_marker :
    containsSub "xx elap=1".data timingMarker = false ∧
    checksLine "xx elap=1".data = true ∧
    parse_elapsed "xx elap=1".data = -1 ∧
    lineFlagged "xx elap=1".data = true :=
  ⟨rfl, rfl, rfl, rfl⟩

/-- C2 (amended): for every input line that does not contain the substring
`"elap="`, the parser yields `elapsed_ms = absent` and the anomaly check is
never applied to that line by the monitor loop (its per-line processing
leaves the state unchanged). -/
theorem no_elap_substring_never_checked (l : List Char)
    (h : containsSub l elapMarker = false) :
    parseElapsedOpt l = none ∧ checksLine l = false ∧
    ∀ iter buf st, processLine iter buf st l = st := by
  have hT : strstr l timingMarker = none := by
    cases hs : strstr l timingMarker with
    | none => rfl
    | some p =>
        exfalso
        have hc : containsSub l elapMarker = true :=
          containsSub_elap_of_timing l (by rw [hs]; rfl)
        rw [h] at hc
        cases hc
  refine ⟨?_, ?_, ?_⟩
  · simp only [parseElapsedOpt, hT]
  · simp [checksLine, h]
  · intro iter buf st
    simp [processLine, lineFlagged, checksLine, h]

/-- Witness for C2 (amended) at the concrete line `"hello"`. -/
theorem no_elap_substring_witness :
    containsSub "hello".data elapMarker = false ∧
    parseElapsedOpt "hello".data = none ∧
    checksLine "hello".data = false ∧
    processLine 0 [] (initState []) "hello".data = initState [] :=
  ⟨rfl, (no_elap_substring_never_checked "hello".data rfl).1,
   (no_elap_substring_never_checked "hello".data rfl).2.1,
   (no_elap_substring_never_checked "hello".data rfl).2.2 0 [] (initState [])⟩

/-- C3: for every line short enough for the monitor's line buffer whose
parsed `elapsed_ms` is present, the line enters the bug-recording branch
iff the value is negative or exceeds the 10000 threshold; every value in
`[0, 10000]` is not flagged. -/
theorem flagged_iff_out_of_range (l : List Char) (e : Int)
    (hlen : l.length < 512) (hp : parseElapsedOpt l = some e) :
    (lineFlagged l = true ↔ (e < 0 ∨ 10000 < e)) ∧
    (0 ≤ e → e ≤ 10000 → lineFlagged l = false) := by
  have hT : (strstr l timingMarker).isSome = true := by
    unfold parseElapsedOpt at hp
    cases hs : strstr l timingMarker with
    | none => rw [hs] at hp; simp at hp
    | some p => rfl
  have hc : containsSub l elapMarker = true := containsSub_elap_of_timing l hT
  have hpe : parse_elapsed l = e := by simp [parse_elapsed, hp]
  have hlf : lineFlagged l = anomalous e := by
    simp [lineFlagged, checksLine, hc, hlen, hpe]
  constructor
  · rw [hlf]
    simp only [anomalous, Bool.or_eq_true, decide_eq_true_eq]
  · intro h1 h2
    rw [hlf]
    simp only [anomalous, Bool.or_eq_false_iff, decide_eq_false_iff_not]
    omega

theorem goodLog_processLine (iter : Nat) (buf : List Char) (st : SState)
    (l : List Char) (h : GoodLog st) : GoodLog (processLine iter buf st l) := by
  obtain ⟨ho, hb⟩ := h
  unfold processLine
  cases hf : lineFlagged l with
  | false => exact ⟨ho, hb⟩
  | true =>
      simp only [if_true]
      unfold log_debug_snapshot
      cases hops : st.logOpens with
      | nil =>
          simp only [hops, List.headD_nil, if_true]
          exact ⟨by intro b hb'; simp [hops] at hb', by simp [hb]⟩
      | cons b bs =>
          have hbtrue : b = true := ho b (by simp [hops])
          simp only [hops, List.headD_cons, hbtrue, if_true, List.tail_cons]
          exact ⟨fun x hx => ho x (by simp [hops, hx]), by simp [hb]⟩

theorem goodLog_foldl (iter : Nat) (buf : List Char) (ls : List (List Char)) :
    ∀ st : SState, GoodLog st → GoodLog (ls.foldl (processLine iter buf) st) := by
  induction ls with
  | nil => intro st h; exact h
  | cons l ls ih =>
      intro st h
      exact ih _ (goodLog_processLine iter buf st l h)

theorem goodLog_step (e : Event) (st : SState) (h : GoodLog st) :
    GoodLog (step e st) := by
  cases e with
  | signal => exact h
  | monitorExit => exact h
  | mainStop => exact h
  | monitor inp =>
      show GoodLog (monitorStep inp st)
      unfold monitorStep
      cases hg : (st.keep_running && decide (st.iteration < TEST_ITERATIONS)) with
      | false =>
          rw [if_neg (by simp)]
          exact h
      | true =>
          rw [if_pos rfl]
          cases inp with
          | unavailable => exact h
          | feed chunks =>
              show GoodLog (monitorPass chunks st)
              unfold monitorPass
              exact goodLog_foldl st.iteration (captureLoop chunks [])
                (completeLines (captureLoop chunks [])) st h

theorem goodLog_run (evs : List Event) :
    ∀ st : SState, GoodLog st → GoodLog (runEvents evs st) := by
  induction evs with
  | nil => intro st h; exact h
  | cons e evs ih =>
      intro st h
      exact ih _ (goodLog_step e st h)

/-- C1 counterexample: a run in which one anomaly is detected but the
`fopen` of the bug log fails ends with `bugs_found = 1` and an empty bug
log, so the counter does not equal the number of records "regardless of
log-write failures". -/
theorem bugs_ne_bugLog_on_failed_open :
    (runEvents [Event.monitor (FeedInput.feed ["t_o/elap=60000/15000ms op=0x0a\n".data])]
      (initState [false])).bugs_found = 1 ∧
    (runEvents [Event.monitor (FeedInput.feed ["t_o/elap=60000/15000ms op=0x0a\n".data])]
      (initState [false])).bugLog.length = 0 :=
  ⟨rfl, rfl⟩

/-- C1 (amended): after a run completes, the anomaly counter `bugs_found`
equals the number of records in the bug log, provided every open of the
bug log file during the run succeeds.  (When an open fails,
`log_debug_snapshot` warns and returns without writing, but `bugs_found`
was already incremented, so the counter exceeds the record count.) -/
theorem bugs_eq_bugLog_of_log_opens_ok (evs : List Event) (st : SState)
    (h1 : ∀ b ∈ st.logOpens, b = true)
    (h2 : st.bugs_found = st.bugLog.length) :
    (runEvents evs st).bugs_found = (runEvents evs st).bugLog.length :=
  (goodLog_run evs st ⟨h1, h2⟩).2

/-- Witness for C1 (amended): a run from the initial state with an
all-successes oracle, detecting one anomaly, ends with counter 1 and one
log record. -/
theorem bugs_eq_bugLog_witness :
    (∀ b ∈ (initState [true]).logOpens, b = true) ∧
    (initState [true]).bugs_found = (initState [true]).bugLog.length ∧
    (runEvents [Event.monitor (FeedInput.feed ["t_o/elap=60000/15000ms op=0x0a\n".data])]
      (initState [true])).bugs_found =
    (runEvents [Event.monitor (FeedInput.feed ["t_o/elap=60000/15000ms op=0x0a\n".data])]
      (initState [true])).bugLog.length :=
  ⟨by simp [initState], rfl,
   bugs_eq_bugLog_of_log_opens_ok
     [Event.monitor (FeedInput.feed ["t_o/elap=60000/15000ms op=0x0a\n".data])]
     (initState [true]) (by simp [initState]) rfl⟩

/-- `keep_running` is never written with `1` by any step: each mutating
site (`cleanup`, the monitor loop, monitor exit, `main`) either leaves it
unchanged or sets it to `0`. -/
theorem step_keep_running (e : Event) (st : SState)
    (h : st.keep_running = false) : (step e st).keep_running = false := by
  cases e with
  | signal => rfl
  | monitorExit => rfl
  | mainStop => rfl
  | monitor inp =>
      show (monitorStep inp st).keep_running = false
      unfold monitorStep
      rw [h]
      simp [h]

/-- C6: throughout every run, the stop flag only transitions from running
to stopped - once `keep_running` is `0`, no subsequent event (signal
handler, monitor iteration, monitor exit, coordinator) ever makes it `1`
again. -/
theorem keep_running_monotone (evs : List Event) (st : SState)
    (h : st.keep_running = false) :
    (runEvents evs st).keep_running = false := by
  induction evs generalizing st with
  | nil => exact h
  | cons e evs ih => exact ih (step e st) (step_keep_running e st h)

/-- Witness for C6: from a stopped state, a signal followed by a monitor
iteration leaves the flag stopped. -/
theorem keep_running_monotone_witness :
    ({ initState [] with keep_running := false } : SState).keep_running = false ∧
    (runEvents [Event.signal, Event.monitor FeedInput.unavailable]
      { initState [] with keep_running := false }).keep_running = false :=
  ⟨rfl, keep_running_monotone [Event.signal, Event.monitor FeedInput.unavailable]
    { initState [] with keep_running := false } rfl⟩

/-- C7: for every completed run, the process exit status is 0 if at least
one anomaly was recorded in the counter, and 1 (non-zero) otherwise
(source line 440). -/
theorem exit_status_reflects_bugs (st : SState) :
    (0 < st.bugs_found → mainExitStatus st = 0) ∧
    (st.bugs_found = 0 → mainExitStatus st = 1) := by
  constructor
  · intro h
    simp [mainExitStatus, h]
  · intro h
    simp [mainExitStatus, h]

/-- Witness for C7 at two concrete final states: three anomalies give exit
status 0; zero anomalies give exit status 1. -/
theorem exit_status_witness :
    0 < ({ initState [] with bugs_found := 3 } : SState).bugs_found ∧
    mainExitStatus { initState [] with bugs_found := 3 } = 0 ∧
    (initState []).bugs_found = 0 ∧
    mainExitStatus (initState []) = 1 :=
  ⟨by decide,
   (exit_status_reflects_bugs { initState [] with bugs_found := 3 }).1 (by decide),
   rfl,
   (exit_status_reflects_bugs (initState [])).2 rfl⟩

/-- C8: whenever the feed open fails during an active monitor pass, the
monitor performs one backoff and otherwise leaves the state unchanged: the
pass parses nothing, records nothing, and in particular does not increment
the iteration count toward the `TEST_ITERATIONS` limit. -/
theorem feed_unavailable_skips_iteration (st : SState)
    (h1 : st.keep_running = true) (h2 : st.iteration < TEST_ITERATIONS) :
    monitorStep FeedInput.unavailable st = { st with backoffs := st.backoffs + 1 } := by
  unfold monitorStep
  rw [h1]
  simp [h2]

/-- Witness for C8 at the initial state. -/
theorem feed_unavailable_witness :
    (initState []).keep_running = true ∧
    (initState []).iteration < TEST_ITERATIONS ∧
    monitorStep FeedInput.unavailable (initState [])
      = { initState [] with backoffs := (initState []).backoffs + 1 } :=
  ⟨rfl, by decide,
   feed_unavailable_skips_iteration (initState []) rfl (by decide)⟩

/-- A line that does not fit the 512-byte `saved_line` buffer is not copied
and has no effect at all on the state (source lines 300-302). -/
theorem processLine_long (iter : Nat) (buf : List Char) (st : SState)
    (l : List Char) (h : 512 ≤ l.length) : processLine iter buf st l = st := by
  have hc : checksLine l = false := by
    unfold checksLine
    rw [decide_eq_false (by omega)]
    rfl
  simp [processLine, lineFlagged, hc]

theorem foldl_filter_of_skip {α β : Type} (f : β → α → β) (p : α → Bool)
    (hf : ∀ b a, p a = false → f b a = b) :
    ∀ (l : List α) (b : β), l.foldl f b = (l.filter p).foldl f b := by
  intro l
  induction l with
  | nil => intro b; rfl
  | cons a t ih =>
      intro b
      cases hp : p a with
      | false =>
          rw [List.foldl_cons, hf b a hp]
          simp only [List.filter_cons, hp, Bool.false_eq_true, if_false]
          exact ih b
      | true =>
          simp only [List.foldl_cons, List.filter_cons, hp, if_true]
          exact ih (f b a)

/-- C9: any line of the captured feed snapshot whose length is 512 or more
is skipped entirely by the monitor: processing it is a no-op, and the whole
per-snapshot scan computes the same state as the scan over only the lines
shorter than 512, for every captured snapshot. -/
theorem long_lines_never_checked (iter : Nat) (buf : List Char) (st : SState)
    (l : List Char) :
    (512 ≤ l.length → processLine iter buf st l = st) ∧
    (completeLines buf).foldl (processLine iter buf) st
      = ((completeLines buf).filter (fun x => decide (x.length < 512))).foldl
          (processLine iter buf) st := by
  constructor
  · exact processLine_long iter buf st l
  · apply foldl_filter_of_skip
    intro b a ha
    apply processLine_long
    have hn := of_decide_eq_false ha
    omega

/-- Witness for C9 at a concrete 512-character line. -/
theorem long_lines_witness :
    512 ≤ (List.replicate 512 'a').length ∧
    processLine 0 [] (initState []) (List.replicate 512 'a') = initState [] :=
  ⟨by rw [List.length_replicate],
   (long_lines_never_checked 0 [] (initState []) (List.replicate 512 'a')).1
     (by rw [List.length_replicate])⟩

/-- The capture loop appends a chunk only when the buffer position before
the append is below `65536 - 512`; since each `fgets` chunk holds at most
511 characters, the captured buffer never exceeds `65023 + 511 = 65534`
bytes. -/
theorem captureLoop_le (chunks : List (List Char)) :
    ∀ acc : List Char, (∀ c ∈ chunks, c.length ≤ 511) → acc.length ≤ 65534 →
      (captureLoop chunks acc).length ≤ 65534 := by
  induction chunks with
  | nil => intro acc _ h2; exact h2
  | cons c rest ih =>
      intro acc h1 h2
      unfold captureLoop
      by_cases hlt : acc.length < 65536 - 512
      · rw [if_pos hlt]
        apply ih (acc ++ c) (fun x hx => h1 x (by simp [hx]))
        have hc : c.length ≤ 511 := h1 c (by simp)
        rw [List.length_append]
        omega
      · rw [if_neg hlt]
        exact h2

/-- While every buffer position stays below the guard `65536 - 512`, the
capture loop appends every chunk. -/
theorem captureLoop_eq_join (chunks : List (List Char)) :
    ∀ acc : List Char,
      (∀ k, k < chunks.length →
        acc.length + (((chunks.take k).map List.length).sum) < 65536 - 512) →
      captureLoop chunks acc = acc ++ chunks.flatten := by
  induction chunks with
  | nil => intro acc _; simp [captureLoop]
  | cons c rest ih =>
      intro acc h
      unfold captureLoop
      have h0 : acc.length < 65536 - 512 := by
        have hx := h 0 (by simp)
        simpa using hx
      rw [if_pos h0, ih (acc ++ c) ?cond]
      · simp
      case cond =>
        intro k hk
        have hx := h (k + 1) (by simp only [List.length_cons]; omega)
        simp only [List.take_succ_cons, List.map_cons, List.sum_cons,
          List.length_append] at hx ⊢
        omega

/-- C10 counterexample: a feed delivered as 128 full `fgets` chunks of 511
characters is captured whole - 65408 bytes, which exceeds the claimed
ceiling of `65536 - 512 = 65024` bytes.  (The guard compares the buffer
position before each append, so capture can overshoot it by up to 510
bytes.) -/
theorem capture_exceeds_claimed_ceiling :
    (captureLoop (List.replicate 128 (List.replicate 511 'a')) []).length = 65408 ∧
    65536 - 512 < 65408 := by
  constructor
  · rw [captureLoop_eq_join (List.replicate 128 (List.replicate 511 'a')) [] ?cond]
    · rw [List.nil_append, List.length_flatten, List.map_replicate,
        List.length_replicate, List.sum_replicate, smul_eq_mul]
    case cond =>
      intro k hk
      rw [List.length_replicate] at hk
      have ht : (List.replicate 128 (List.replicate 511 'a')).take k
          = List.replicate k (List.replicate 511 'a') := by
        rw [List.take_replicate]
        congr 1
        omega
      rw [ht, List.map_replicate, List.length_replicate, List.sum_replicate,
        smul_eq_mul, List.length_nil]
      omega
  · omega

/-- C10 (amended): each monitor pass captures at most 65534 bytes of the
status feed into the fixed buffer before any parsing begins (the loop stops
appending once the position reaches `65536 - 512`, and each `fgets` chunk
adds at most 511 bytes, so the final position is at most `65023 + 511`);
feed content beyond that is dropped unexamined, and all parsing in the
pass operates only on the buffer captured before parsing started. -/
theorem capture_length_bounded (chunks : List (List Char))
    (h : ∀ c ∈ chunks, c.length ≤ 511) :
    (captureLoop chunks []).length ≤ 65534 :=
  captureLoop_le chunks [] h (by simp)

/-- Witness for C10 (amended) at one full 511-character chunk. -/
theorem capture_length_witness :
    (List.replicate 511 'a').length ≤ 511 ∧
    (captureLoop [List.replicate 511 'a'] []).length ≤ 65534 :=
  ⟨by rw [List.length_replicate],
   capture_length_bounded [List.replicate 511 'a']
     (by intro c hc
         simp only [List.mem_singleton] at hc
         subst hc
         rw [List.length_replicate])⟩

/-- Witness for C3: the concrete checked line
`"xx op=0x0a t_o/elap=60000/15000ms"` has present elapsed `15000 > 10000`
and is flagged. -/
theorem flagged_iff_witness :
    "xx op=0x0a t_o/elap=60000/15000ms".data.length < 512 ∧
    parseElapsedOpt "xx op=0x0a t_o/elap=60000/15000ms".data = some 15000 ∧
    lineFlagged "xx op=0x0a t_o/elap=60000/15000ms".data = true :=
  ⟨by decide, rfl,
   (flagged_iff_out_of_range "xx op=0x0a t_o/elap=60000/15000ms".data 15000
     (by decide) rfl).1.2 (Or.inr (by decide))⟩

end SgRace
